import Mathlib

/-!
Verification development for the conventional-commits changelog engine
(src/index.js): a shallow embedding of the classifier, version locator,
commit grouper, notice extractor, release aggregator and changelog renderer,
together with theorems settling the specification claims about them.

Modelling conventions, used throughout:
* JavaScript null and undefined are both rendered as `none`;
* thrown exceptions are rendered with `Except JsErr`; a function whose body
  cannot throw keeps a plain result type;
* JavaScript objects whose keys are iterated in insertion order are rendered
  as association lists `List (key × value)`;
* machine numbers only ever hold small naturals here (version components),
  rendered as `Nat`.
-/

set_option maxHeartbeats 1600000
set_option maxRecDepth 10000

namespace CCChangelog

/-- JavaScript runtime exceptions the embedded code can raise. -/
inductive JsErr where
  | typeError (msg : String)
  | error (msg : String)
deriving Repr, DecidableEq, Inhabited

instance {ε α : Type} [DecidableEq ε] [DecidableEq α] : DecidableEq (Except ε α) := fun x y =>
  match x, y with
  | Except.ok a, Except.ok b =>
    if h : a = b then isTrue (by rw [h]) else isFalse (by intro hh; cases hh; exact h rfl)
  | Except.error a, Except.error b =>
    if h : a = b then isTrue (by rw [h]) else isFalse (by intro hh; cases hh; exact h rfl)
  | Except.ok _, Except.error _ => isFalse (by intro hh; cases hh)
  | Except.error _, Except.ok _ => isFalse (by intro hh; cases hh)

/-- A parsed semantic version as the semver library keeps it. Build metadata is
dropped: semver ignores it in every comparison and omits it from the canonical
version string, and no code path here observes it. -/
structure SemVer where
  major : Nat
  minor : Nat
  patch : Nat
  prerelease : List String
deriving Repr, DecidableEq, Inhabited

/-- Decimal digit character for a digit value below ten. -/
def digitOf (d : Nat) : Char :=
  if d = 0 then '0' else if d = 1 then '1' else if d = 2 then '2' else if d = 3 then '3'
  else if d = 4 then '4' else if d = 5 then '5' else if d = 6 then '6' else if d = 7 then '7'
  else if d = 8 then '8' else '9'

/-- Fueled decimal rendering of a natural number, most significant digit first. -/
def natDigits : Nat → Nat → List Char → List Char
  | 0, _, acc => acc
  | fuel + 1, n, acc =>
    if n < 10 then digitOf n :: acc
    else natDigits fuel (n / 10) (digitOf (n % 10) :: acc)

/-- Decimal string of a natural number, as JavaScript renders version components. -/
def natToStr (n : Nat) : String := String.mk (natDigits (n + 1) n [])

/-- The canonical version string of a SemVer record (the .version field of the
semver library): major.minor.patch, plus a dash and the dot-joined prerelease
identifiers when there are any. -/
def renderSemVer (v : SemVer) : String :=
  natToStr v.major ++ "." ++ natToStr v.minor ++ "." ++ natToStr v.patch ++
    (if v.prerelease.isEmpty then "" else "-" ++ String.intercalate "." v.prerelease)

/-- Characters the semver grammar allows inside identifiers. -/
def isIdentChar (c : Char) : Bool := c.isAlphanum || c == '-'

def digitsToNat (ds : List Char) : Nat := ds.foldl (fun a c => a * 10 + (c.toNat - 48)) 0

/-- Parse the dot-separated identifiers of a prerelease suffix, as the optional
prerelease group of the coerce regular expression consumes them: one identifier
of alphanumeric-or-dash characters, then further ones while each dot is followed
by another identifier. Returns the identifiers and the unconsumed rest. -/
def parsePreIds : Nat → List Char → List String × List Char
  | 0, cs => ([], cs)
  | fuel + 1, cs =>
    let (id1, rest) := cs.span isIdentChar
    if id1.isEmpty then ([], cs)
    else
      match rest with
      | '.' :: rest2 =>
        let (ids, rest3) := parsePreIds fuel rest2
        if ids.isEmpty then ([String.mk id1], rest)
        else (String.mk id1 :: ids, rest3)
      | _ => ([String.mk id1], rest)

/-- The parsing step of coerce once the first digit run has been located: read
major, then optionally .minor and .patch, then optionally a prerelease suffix
when includePrerelease is set. The trailing end-or-non-digit constraint of the
coerce regular expression is automatic, because every digit run is consumed
maximally. -/
def coerceParse (includePre : Bool) (cs : List Char) : SemVer :=
  let (d1, r1) := cs.span Char.isDigit
  let (minor, patch, r3) :=
    match r1 with
    | '.' :: r1b =>
      let (d2, r2) := r1b.span Char.isDigit
      if d2.isEmpty then (0, 0, r1)
      else
        match r2 with
        | '.' :: r2b =>
          let (d3, r3b) := r2b.span Char.isDigit
          if d3.isEmpty then (digitsToNat d2, 0, r2)
          else (digitsToNat d2, digitsToNat d3, r3b)
        | _ => (digitsToNat d2, 0, r2)
    | _ => (0, 0, r1)
  let pre :=
    if includePre then
      match r3 with
      | '-' :: r3b => (parsePreIds (r3b.length + 1) r3b).1
      | _ => []
    else []
  ⟨digitsToNat d1, minor, patch, pre⟩

/-- Scan for the first digit of the string; the first maximal digit run starts
the match of the coerce regular expression. -/
def coerceScan (includePre : Bool) : List Char → Option SemVer
  | [] => none
  | c :: rest => if c.isDigit then some (coerceParse includePre (c :: rest)) else coerceScan includePre rest

/-- Model of semver.coerce(s, with or without includePrerelease): the first run
of digits becomes the major component, optionally followed by minor, patch and,
when includePrerelease is set, a prerelease suffix; none when the string holds
no digit at all. -/
def coerce (includePre : Bool) (s : String) : Option SemVer :=
  coerceScan includePre s.data

/-- Three-way lexicographic comparison of character lists by code point. -/
def cmpCharList : List Char → List Char → Ordering
  | [], [] => Ordering.eq
  | [], _ :: _ => Ordering.lt
  | _ :: _, [] => Ordering.gt
  | a :: as, b :: bs =>
    if a.val < b.val then Ordering.lt
    else if b.val < a.val then Ordering.gt
    else cmpCharList as bs

/-- A nonempty all-digit identifier, compared numerically by semver. -/
def isNumericIdent (s : String) : Bool := s != "" && s.data.all Char.isDigit

/-- Model of semver compareIdentifiers: numeric identifiers compare as numbers,
a numeric identifier is below an alphanumeric one, and two alphanumeric ones
compare as strings. -/
def cmpIdent (a b : String) : Ordering :=
  if isNumericIdent a && isNumericIdent b then compare (digitsToNat a.data) (digitsToNat b.data)
  else if isNumericIdent a then Ordering.lt
  else if isNumericIdent b then Ordering.gt
  else cmpCharList a.data b.data

/-- Identifier-by-identifier prerelease comparison once both sides are known to
have a prerelease: a shorter list that is a prefix of the other is lower. -/
def cmpPreRest : List String → List String → Ordering
  | [], [] => Ordering.eq
  | [], _ :: _ => Ordering.lt
  | _ :: _, [] => Ordering.gt
  | a :: as, b :: bs =>
    match cmpIdent a b with
    | Ordering.eq => cmpPreRest as bs
    | o => o

/-- Model of semver prerelease comparison: a version without prerelease is above
any version with one; otherwise identifiers compare pairwise. -/
def cmpPre (a b : List String) : Ordering :=
  match a, b with
  | [], [] => Ordering.eq
  | [], _ :: _ => Ordering.gt
  | _ :: _, [] => Ordering.lt
  | _, _ => cmpPreRest a b

/-- Model of semver.compare on parsed versions. -/
def cmpSemVer (a b : SemVer) : Ordering :=
  (compare a.major b.major).then
    ((compare a.minor b.minor).then
      ((compare a.patch b.patch).then (cmpPre a.prerelease b.prerelease)))

def semverGte (a b : SemVer) : Bool := cmpSemVer a b != Ordering.lt

def semverEq (a b : SemVer) : Bool := cmpSemVer a b == Ordering.eq

/-- Insert behind every element the comparator does not place strictly after x,
so that elements comparing equal keep their arrival order. -/
def insertLe {α : Type} (le : α → α → Bool) (x : α) : List α → List α
  | [] => [x]
  | y :: ys => if le y x then y :: insertLe le x ys else x :: y :: ys

/-- Stable sort by a boolean comparator, as the JavaScript Array sort is
specified to be: elements are inserted left to right into the sorted output. -/
def stableSort {α : Type} (le : α → α → Bool) (l : List α) : List α :=
  l.foldl (fun acc x => insertLe le x acc) []

/-- ASCII upper-casing, as the JavaScript toUpperCase acts on these inputs. -/
def asciiUpper (s : String) : String := String.mk (s.data.map Char.toUpper)

/-- ASCII lower-casing, as the JavaScript toLowerCase acts on these inputs. -/
def asciiLower (s : String) : String := String.mk (s.data.map Char.toLower)

/-- Model of the JavaScript String startsWith. -/
def startsWithStr (s pre : String) : Bool := pre.data.isPrefixOf s.data

/-- Model of the JavaScript String endsWith. -/
def endsWithStr (s suf : String) : Bool := suf.data.reverse.isPrefixOf s.data.reverse

/-- Lexicographic order on character lists by code point, the order of the
JavaScript string comparison operators. -/
def charListLe : List Char → List Char → Bool
  | [], _ => true
  | _ :: _, [] => false
  | a :: as, b :: bs => a.val < b.val || (a == b && charListLe as bs)

/-- Lexicographic order on strings, used by the default JavaScript Array sort
of the scope keys. -/
def strLeB (a b : String) : Bool := charListLe a.data b.data

/-- Fueled left-to-right global replacement on character lists; the fuel of one
more than the input length never runs out, since every step consumes at least
one character. -/
def replaceAllL : Nat → List Char → List Char → List Char → List Char
  | 0, _, _, s => s
  | fuel + 1, pat, repl, s =>
    match s with
    | [] => []
    | c :: rest =>
      if !pat.isEmpty && pat.isPrefixOf (c :: rest) then
        repl ++ replaceAllL fuel pat repl ((c :: rest).drop pat.length)
      else c :: replaceAllL fuel pat repl rest

/-- Model of the JavaScript global string replacement. -/
def replaceAllStr (s pat repl : String) : String :=
  String.mk (replaceAllL (s.data.length + 1) pat.data repl.data s.data)

/-- Whitespace recognized by trimming. -/
def isJsSpace (c : Char) : Bool := c == ' ' || c == '\t' || c == '\n' || c == '\r'

/-- Trim whitespace from both ends of a character list. -/
def trimChars (l : List Char) : List Char :=
  ((l.dropWhile isJsSpace).reverse.dropWhile isJsSpace).reverse

/-- Containment of one character list in another as a contiguous run. -/
def containsSubList (pat : List Char) : List Char → Bool
  | [] => pat.isEmpty
  | c :: rest => pat.isPrefixOf (c :: rest) || containsSubList pat rest

/-- Ascending semantic-precedence order of the coerced versions, the sort the
version locator applies. -/
def sortVersions (l : List SemVer) : List SemVer :=
  stableSort (fun a b => cmpSemVer a b != Ordering.gt) l

/-- Model of findPreviousVersion (src/index.js lines 75-109). The coerced
versions are kept as SemVer records and rendered to their canonical strings on
return; the source renders each coerced value immediately and has the sort and
the comparisons reparse those canonical strings, which denotes the same
ordering. Reading .version off the null coerce result of an uncoercible entry
raises a TypeError before the Boolean filter ever runs; a coerced version
string is never empty, so the filter otherwise keeps every element. -/
def findPreviousVersion (versions : List String) (versionToFind : String)
    (type : String := "PATCH") : Except JsErr (Option String) := do
  let type := asciiUpper type
  if !(["MAJOR", "MINOR", "PATCH"].contains type) then
    throw (JsErr.error "Invalid input parameters")
  let coercedVersion ←
    match coerce true versionToFind with
    | none => throw (JsErr.error "Invalid version string")
    | some c => pure c
  let coerced ← versions.mapM (fun v =>
    match coerce true v with
    | none => (throw (JsErr.typeError "Cannot read properties of null (reading version)") :
        Except JsErr SemVer)
    | some c => pure c)
  let sortedVersions := sortVersions coerced
  let prefixV := startsWithStr versionToFind "v"
  match type with
  | "MAJOR" =>
    let range : SemVer := ⟨coercedVersion.major, 0, 0, []⟩
    pure (((sortedVersions.find? (fun v => semverGte v range)).map renderSemVer).map
      (fun m => if prefixV then "v" ++ m else m))
  | "MINOR" =>
    let range : SemVer := ⟨coercedVersion.major, coercedVersion.minor, 0, []⟩
    pure (((sortedVersions.find? (fun v => semverGte v range)).map renderSemVer).map
      (fun m => if prefixV then "v" ++ m else m))
  | "PATCH" =>
    match sortedVersions.findIdx? (fun v => semverEq v coercedVersion) with
    | none => pure none
    | some 0 => pure none
    | some (i + 1) =>
      let m := renderSemVer (sortedVersions.getD i default)
      pure (some (if prefixV then "v" ++ m else m))
  | _ => pure none

/-- The PATCH contract as the specification words it: the element immediately
preceding the target in the sorted sequence, none when the target is the first
element or is absent. -/
def specPatchPred (sorted : List SemVer) (target : SemVer) : Option String :=
  match sorted.findIdx? (fun v => semverEq v target) with
  | some (i + 1) => some (renderSemVer (sorted.getD i default))
  | _ => none

/-- Abstract syntax of the regular expressions the classifier builds: literal
characters, the dot, the word-boundary assertion, sequencing, alternation, the
optional quantifier and the star. -/
inductive Re where
  | eps
  | chr (c : Char)
  | dot
  | bnd
  | seq (a b : Re)
  | alt (a b : Re)
  | opt (a : Re)
  | star (a : Re)
deriving Repr

/-- Node count of a pattern, used to size the matcher fuel. -/
def Re.size : Re → Nat
  | Re.eps => 1
  | Re.chr _ => 1
  | Re.dot => 1
  | Re.bnd => 1
  | Re.seq a b => a.size + b.size + 1
  | Re.alt a b => a.size + b.size + 1
  | Re.opt a => a.size + 1
  | Re.star a => a.size + 1

/-- Word characters of the regular-expression word-boundary assertion. -/
def isWordChar (c : Char) : Bool := c.isAlphanum || c == '_'

/-- A position is a word boundary when exactly one of its two neighbouring
characters is a word character; string edges count as non-word. -/
def atBoundary (prev : Option Char) (s : List Char) : Bool :=
  let w1 := match prev with | some c => isWordChar c | none => false
  let w2 := match s with | c :: _ => isWordChar c | [] => false
  w1 != w2

/-- Fuel-bounded backtracking matcher with a continuation; prev is the character
just before the current position, consulted by the word-boundary assertion. The
entry points below pass fuel well above the backtracking depth of the classifier
patterns, whose only starred subterm is the dot and therefore consumes a
character on every iteration, so the bound is never reached. -/
def reM : Nat → Re → Option Char → List Char → (Option Char → List Char → Bool) → Bool
  | 0, _, _, _, _ => false
  | n + 1, r, prev, s, k =>
    match r with
    | Re.eps => k prev s
    | Re.chr c =>
      match s with
      | [] => false
      | a :: rest => a == c && k (some a) rest
    | Re.dot =>
      match s with
      | [] => false
      | a :: rest => a != '\n' && a != '\r' && k (some a) rest
    | Re.bnd => atBoundary prev s && k prev s
    | Re.seq a b => reM n a prev s (fun p2 s2 => reM n b p2 s2 k)
    | Re.alt a b => reM n a prev s k || reM n b prev s k
    | Re.opt a => reM n a prev s k || k prev s
    | Re.star a => reM n a prev s (fun p2 s2 => reM n (Re.star a) p2 s2 k) || k prev s

/-- Literal pattern for a string. -/
def rs (s : String) : Re := s.data.foldr (fun c r => Re.seq (Re.chr c) r) Re.eps

/-- Alternation of a list of patterns, grouped to the right. -/
def ralt : List Re → Re
  | [] => Re.eps
  | [r] => r
  | r :: rest => Re.alt r (ralt rest)

/-- Alternation of literal strings. -/
def raltS (l : List String) : Re := ralt (l.map rs)

/-- Sequencing of a list of patterns. -/
def rcat : List Re → Re
  | [] => Re.eps
  | [r] => r
  | r :: rest => Re.seq r (rcat rest)

def reFuel (r : Re) (s : List Char) : Nat := (s.length + 1) * (r.size + 2)

/-- Model of startsWith(expr, str) from the classifier: the lower-cased string
matched at its start against expr followed by a word boundary. -/
def startsWithRe (r : Re) (str : String) : Bool :=
  let cs := (asciiLower str).data
  let p := Re.seq r Re.bnd
  reM (reFuel p cs) p none cs (fun _ _ => true)

/-- Unanchored search: try a match at every position, tracking the previous
character for the word-boundary assertion. -/
def reSearch (r : Re) (f : Nat) : Option Char → List Char → Bool
  | prev, [] => reM f r prev [] (fun _ _ => true)
  | prev, a :: rest => reM f r prev (a :: rest) (fun _ _ => true) || reSearch r f (some a) rest

/-- Model of contains(expr, str) from the classifier: the lower-cased string
searched anywhere for expr wrapped in word boundaries. -/
def containsRe (r : Re) (str : String) : Bool :=
  let cs := (asciiLower str).data
  let p := Re.seq Re.bnd (Re.seq r Re.bnd)
  reSearch p (reFuel p cs) none cs

/-- Result record of the classifier; a missing subType is none. -/
structure MessageTypeResult where
  type : String
  subType : Option String := none
deriving Repr, DecidableEq, Inhabited

/-- The suffix alternation s, ed, ing of the classifier patterns. -/
def sfx : Re := raltS ["s", "ed", "ing"]

/-- The suffix alternation e, es, ed, ing for stems with a dropped final e. -/
def esfx : Re := raltS ["e", "es", "ed", "ing"]

/-- The suffix alternation y, ies, ied, ying for stems with a dropped final y. -/
def ysfx : Re := raltS ["y", "ies", "ied", "ying"]

/-- The verb alternation add, correct, create, improve, include, update. -/
def verbsRe : Re := raltS ["add", "correct", "create", "improve", "include", "update"]

/-- A verb stem with an optional suffix group, the shape stem(suffixes)? used
throughout the cascade. -/
def stemOpt (stem : String) (suffixes : Re) : Re := Re.seq (rs stem) (Re.opt suffixes)

/-- The feature-add starts-with verb checks of the classifier, in source order
(src/index.js lines 150-159 and again 288-297). -/
def featAddMatch (message : String) : Bool :=
  startsWithRe (stemOpt "add" sfx) message ||
  startsWithRe (stemOpt "allow" sfx) message ||
  startsWithRe (stemOpt "creat" esfx) message ||
  startsWithRe (stemOpt "enabl" esfx) message ||
  startsWithRe (stemOpt "implement" sfx) message ||
  startsWithRe (stemOpt "includ" esfx) message ||
  startsWithRe (stemOpt "incorporat" esfx) message ||
  startsWithRe (stemOpt "install" sfx) message ||
  startsWithRe (stemOpt "introduc" esfx) message ||
  startsWithRe (stemOpt "support" sfx) message

/-- The feature-remove starts-with verb checks, in source order (lines 162-166
and again 310-314). -/
def featRemoveMatch (message : String) : Bool :=
  startsWithRe (stemOpt "delet" esfx) message ||
  startsWithRe (stemOpt "deprecat" esfx) message ||
  startsWithRe (stemOpt "disabl" esfx) message ||
  startsWithRe (stemOpt "remov" esfx) message ||
  startsWithRe (stemOpt "uninstall" sfx) message

/-- The feature-change starts-with verb checks, in source order (lines 300-307). -/
def featChangeMatch (message : String) : Bool :=
  startsWithRe (stemOpt "adjust" sfx) message ||
  startsWithRe (stemOpt "append" sfx) message ||
  startsWithRe (stemOpt "chang" esfx) message ||
  startsWithRe (stemOpt "extend" sfx) message ||
  startsWithRe (stemOpt "hid" esfx) message ||
  startsWithRe (stemOpt "mak" esfx) message ||
  startsWithRe (stemOpt "modif" ysfx) message ||
  startsWithRe (stemOpt "tweak" sfx) message

/-- Consume a main version number of the strict semver grammar, zero or a
nonzero digit followed by digits, returning the rest. -/
def parseMainNum : List Char → Option (List Char)
  | [] => none
  | '0' :: rest => some rest
  | c :: rest => if c.isDigit then some (rest.dropWhile Char.isDigit) else none

/-- Character-level split on dots, as the JavaScript String split with a dot
separator behaves: the empty string yields one empty part. -/
def splitDot : List Char → List (List Char)
  | [] => [[]]
  | c :: rest =>
    if c = '.' then [] :: splitDot rest
    else
      match splitDot rest with
      | [] => [[c]]
      | g :: gs => (c :: g) :: gs

/-- A valid prerelease identifier of the strict semver grammar: nonempty, made
of alphanumerics and dashes, and without leading zeros when purely numeric. -/
def validPreIdent (l : List Char) : Bool :=
  !l.isEmpty && l.all isIdentChar &&
    (if l.all Char.isDigit then l == ['0'] || l.head? != some '0' else true)

/-- Model of semver.valid on the trimmed string: an optional v, three
dot-separated numbers without leading zeros, an optional prerelease and an
optional build suffix, nothing else. -/
def semverValid (s : String) : Bool :=
  let cs := trimChars s.data
  if cs.length > 256 then false else
  let cs := match cs with | 'v' :: rest => rest | l => l
  match parseMainNum cs with
  | none => false
  | some r1 =>
    match r1 with
    | '.' :: r1b =>
      match parseMainNum r1b with
      | none => false
      | some r2 =>
        match r2 with
        | '.' :: r2b =>
          match parseMainNum r2b with
          | none => false
          | some r3 =>
            let (pre, r4) :=
              match r3 with
              | '-' :: r3b =>
                let (pcs, rr) := r3b.span (fun c => isIdentChar c || c == '.')
                (some pcs, rr)
              | l => (none, l)
            let preOk :=
              match pre with
              | none => true
              | some pcs => (splitDot pcs).all validPreIdent
            let buildOk :=
              match r4 with
              | [] => true
              | '+' :: bs =>
                let (bcs, r5) := bs.span (fun c => isIdentChar c || c == '.')
                r5.isEmpty && (splitDot bcs).all (fun l => !l.isEmpty && l.all isIdentChar)
              | _ => false
            preOk && buildOk
        | _ => false
    | _ => false

/-- Model of getMessageType (src/index.js lines 134-335): when forceType is
feat, only the add and remove verb checks run and the subtype defaults to
change; otherwise the full ordered cascade runs, with the configured default
type, or the type other, as the final fallback. The options object is modelled
by its two fields. -/
def getMessageType (message : String) (defaultType : Option MessageTypeResult := none)
    (forceType : Option String := none) : MessageTypeResult :=
  let c := fun (r : Re) => containsRe r message
  let s := fun (r : Re) => startsWithRe r message
  if forceType == some "feat" then
    if featAddMatch message then ⟨"feat", some "add"⟩
    else if featRemoveMatch message then ⟨"feat", some "remove"⟩
    else ⟨"feat", some "change"⟩
  else
  -- Merge
  if s (rs "merge") then ⟨"merge", none⟩
  -- Docs
  else if c (rs "documentation") then ⟨"docs", none⟩
  else if c (rcat [verbsRe, Re.star Re.dot, rs "doc", Re.opt (rs "s")]) then ⟨"docs", none⟩
  else if c (rcat [rs "read", Re.opt (Re.chr ' '), rs "me"]) then ⟨"docs", none⟩
  else if c (rcat [rs "docblock", Re.opt (rs "s")]) then ⟨"docs", none⟩
  else if c (rcat [verbsRe, Re.star Re.dot, rs "comment", Re.opt (rs "s")]) then ⟨"docs", none⟩
  else if c (rs "license") then ⟨"docs", none⟩
  else if c (rcat [rs "change", Re.opt Re.dot, rs "log"]) then ⟨"docs", none⟩
  -- CI
  else if c (rs "jenkins") then ⟨"ci", none⟩
  else if c (rs "travis") then ⟨"ci", none⟩
  else if c (rs "teamcity") then ⟨"ci", none⟩
  -- Fix
  else if c (rs "bug fix") then ⟨"fix", none⟩
  else if s (stemOpt "revert" sfx) then ⟨"fix", none⟩
  else if s (rs "typo") then ⟨"fix", none⟩
  else if s (rs "prevent") then ⟨"fix", none⟩
  -- Chore
  else if c (rcat [rs "version bump", Re.opt (rs "s")]) then ⟨"chore", none⟩
  else if s (stemOpt "bump" sfx) then ⟨"chore", none⟩
  else if s (stemOpt "ignor" esfx) then ⟨"chore", none⟩
  else if s (stemOpt "cleanup" sfx) then ⟨"chore", none⟩
  else if s (stemOpt "renam" esfx) then ⟨"chore", none⟩
  else if s (stemOpt "upgrad" esfx) then ⟨"chore", none⟩
  else if s (rcat [rs "init", Re.star Re.dot, rs "commit"]) then ⟨"chore", none⟩
  else if s (rs "init") then ⟨"chore", none⟩
  -- Perf
  else if s (stemOpt "cach" esfx) then ⟨"perf", none⟩
  else if s (rs "optimize") then ⟨"perf", none⟩
  -- Test
  else if s (stemOpt "test" sfx) || c (rcat [rs "test case", Re.opt (rs "s")]) then ⟨"test", none⟩
  else if c (rcat [ralt [rs "fix", verbsRe, rs "run", rs "remove"], Re.star Re.dot,
      rs "test", Re.opt (rs "s")]) then ⟨"test", none⟩
  else if c (rcat [rs "unit test", Re.opt (rs "s")]) then ⟨"test", none⟩
  else if c (rcat [rs "test", Re.opt (rs "s"), rs " pass", Re.opt (rs "ed")]) then ⟨"test", none⟩
  else if c (rcat [rs "php", Re.opt Re.dot, rs "unit"]) then ⟨"test", none⟩
  else if c (rs "behat") then ⟨"test", none⟩
  else if c (rs "pest") then ⟨"test", none⟩
  else if c (rs "jest") then ⟨"test", none⟩
  else if c (rs "mocha") then ⟨"test", none⟩
  else if c (rs "jasmine") then ⟨"test", none⟩
  else if c (rs "karma") then ⟨"test", none⟩
  else if c (rs "vitest") then ⟨"test", none⟩
  -- Style
  else if c (rs "prettier") then ⟨"style", none⟩
  else if c (rs "eslint") then ⟨"style", none⟩
  else if c (rs "jshint") then ⟨"style", none⟩
  else if c (rs "jslint") then ⟨"style", none⟩
  else if c (rs "tslint") then ⟨"style", none⟩
  else if c (rs "beautifier") then ⟨"style", none⟩
  else if c (rs "stylelint") then ⟨"style", none⟩
  else if c (rs "linting") then ⟨"style", none⟩
  else if s (rs "lint") then ⟨"style", none⟩
  -- Build
  else if semverValid message then ⟨"build", none⟩
  else if s (rs "semver") then ⟨"build", none⟩
  else if s (stemOpt "build" sfx) || c (rcat [rs "dist", Re.star Re.dot,
      ralt [rs "build", rs "folder", rs "dir", rs "directory",
        rcat [rs "file", Re.opt (rs "s")]]]) then ⟨"build", none⟩
  else if c (rcat [rs "build", Re.star Re.dot,
      ralt [rs "status", rcat [rs "step", Re.opt (rs "s")]]]) then ⟨"build", none⟩
  else if c (rcat [rs "update", Re.star Re.dot, rs "build"]) then ⟨"build", none⟩
  else if c (rcat [rs "distribution", Re.opt (rs "s")]) then ⟨"build", none⟩
  else if c (rcat [verbsRe, Re.star Re.dot, rs "dist"]) then ⟨"build", none⟩
  else if c (rcat [rs "peer", Re.opt (rs "s")]) then ⟨"build", none⟩
  else if c (rcat [rs "peer", Re.opt Re.dot, rs "dependency"]) then ⟨"build", none⟩
  else if c (rcat [rs "package", Re.opt Re.dot, ralt [rs "lock", rs "json"]]) then ⟨"build", none⟩
  else if c (rcat [rs "composer", Re.opt Re.dot, ralt [rs "lock", rs "json"]]) then ⟨"build", none⟩
  else if c (rcat [rs "lock", Re.opt Re.dot, rs "file"]) then ⟨"build", none⟩
  else if s (rs "version") then ⟨"build", none⟩
  else if c (rs "bower") then ⟨"build", none⟩
  else if c (rs "brotli") then ⟨"build", none⟩
  else if c (rs "browserify") then ⟨"build", none⟩
  else if c (rs "esbuild") then ⟨"build", none⟩
  else if c (rs "grunt") then ⟨"build", none⟩
  else if c (rs "gulp") then ⟨"build", none⟩
  else if c (rs "maven") then ⟨"build", none⟩
  else if c (rcat [rs "node", Re.opt (Re.alt (Re.chr ' ') Re.dot), rs "js"]) then ⟨"build", none⟩
  else if c (rcat [rs "node version", Re.opt (rs "s")]) then ⟨"build", none⟩
  else if c (rs "npm") then ⟨"build", none⟩
  else if c (rs "pnpm") then ⟨"build", none⟩
  else if c (rs "parcel") then ⟨"build", none⟩
  else if c (rs "rollup") then ⟨"build", none⟩
  else if c (rs "snowpack") then ⟨"build", none⟩
  else if c (rs "tsup") then ⟨"build", none⟩
  else if c (rs "vite") then ⟨"build", none⟩
  else if c (rs "webpack") then ⟨"build", none⟩
  else if c (rs "yarn") then ⟨"build", none⟩
  -- Refactor
  else if s (stemOpt "convert" sfx) then ⟨"refactor", none⟩
  else if s (stemOpt "improv" esfx) then ⟨"refactor", none⟩
  else if s (stemOpt "mov" esfx) then ⟨"refactor", none⟩
  else if s (stemOpt "refactor" sfx) then ⟨"refactor", none⟩
  else if s (stemOpt "replac" esfx) then ⟨"refactor", none⟩
  else if s (stemOpt "simplif" ysfx) then ⟨"refactor", none⟩
  else if s (stemOpt "switch" sfx) then ⟨"refactor", none⟩
  else if s (rs "tidy") then ⟨"refactor", none⟩
  -- Fix 2
  else if s (rs "fix") || c (rcat [rs "fix", esfx]) then ⟨"fix", none⟩
  else if s (stemOpt "correct" (ralt [sfx, rs "ion", rs "ions"])) then ⟨"fix", none⟩
  else if c (rcat [rs "console", Re.opt Re.dot, rs "log"]) then ⟨"fix", none⟩
  -- Chore 2
  else if s (stemOpt "updat" esfx) then ⟨"chore", none⟩
  -- Feat (Add)
  else if featAddMatch message then ⟨"feat", some "add"⟩
  -- Feat (Change)
  else if featChangeMatch message then ⟨"feat", some "change"⟩
  -- Feat (Remove)
  else if featRemoveMatch message then ⟨"feat", some "remove"⟩
  -- Build 2
  else if c (rs "build") then ⟨"build", none⟩
  -- Chore 3
  else if c (rcat [rs "version", Re.opt (rs "s")]) then ⟨"chore", none⟩
  else if c (rs "upgrade") then ⟨"chore", none⟩
  -- Test 2
  else if c (rcat [rs "test", Re.opt (rs "s")]) then ⟨"test", none⟩
  -- Fix 3
  else if c (rs "fix") then ⟨"fix", none⟩
  -- Refactor 2
  else if c (rs "clean") then ⟨"refactor", none⟩
  else defaultType.getD ⟨"other", none⟩

/-- A structured note of a parsed commit, a title and a body text. -/
structure Note where
  title : String
  text : String
deriving Repr, DecidableEq, Inhabited

/-- A commit record as it flows through the pipeline. Fields a given stage has
not produced are none; the revert field holds the header of the reverted
commit when the parser detected a revert. -/
structure Commit where
  type : Option String := none
  subType : Option String := none
  scope : Option String := none
  subject : Option String := none
  header : Option String := none
  body : Option String := none
  footer : Option String := none
  breaking : Option String := none
  notes : List Note := []
  merge : Option String := none
  revert : Option String := none
  orig : String := ""
  raw : String := ""
deriving Repr, DecidableEq, Inhabited

/-- The valid commit types of the module (src/index.js line 52). -/
def validTypes : List String :=
  ["feat", "fix", "chore", "perf", "style", "refactor", "ci", "build", "test", "docs"]

/-- First value at a key in an association list. -/
def lookupStr {α : Type} (m : List (String × α)) (k : String) : Option α :=
  (m.find? (fun p => p.1 == k)).map (fun p => p.2)

/-- Append values at a key, creating the key at the end of the list when it is
new: the default-on-missing-key push idiom on JavaScript objects, which hold
each key once and iterate keys in insertion order. -/
def upsertAppend {α : Type} : List (String × List α) → String → List α → List (String × List α)
  | [], k, vs => [(k, vs)]
  | (k0, v0) :: t, k, vs =>
    if k0 == k then (k0, v0 ++ vs) :: t else (k0, v0) :: upsertAppend t k vs

/-- Options record of parseCommitMessage. -/
structure ParseOptions where
  defaultType : Option MessageTypeResult := none
  validTypes : List String := []

/-- Model of parseCommitMessage (src/index.js lines 351-376). A merge or revert
flag takes absolute precedence; otherwise the classifier runs on the subject,
falling back to the header, with the already-detected type forced; when the
resolved type is not among the valid types the original text is reparsed under
a synthetic header. The classifier predicates lower-case their input, so a
commit with neither subject nor header raises a TypeError. -/
def parseCommitMessage (commit : Commit) (parser : String → Except JsErr Commit)
    (options : ParseOptions := {}) : Except JsErr Commit := do
  if commit.merge.isSome then
    return { commit with type := some "merge" }
  if commit.revert.isSome then
    return { commit with type := some "revert" }
  let type := commit.type
  let msg ←
    match commit.subject.orElse (fun _ => commit.header) with
    | none => throw (JsErr.typeError "Cannot read properties of undefined (reading toLowerCase)")
    | some m => pure m
  let data := getMessageType msg options.defaultType type
  let type := type.getD data.type
  let subType := if type == "feat" then some (data.subType.getD "change") else none
  if options.validTypes.contains type then
    return { commit with type := some type, subType := subType }
  let commit2 ← parser (type ++ ": " ++ commit.orig)
  return { commit2 with type := some type, subType := subType }

/-- Options record of getCommits. -/
structure GetCommitsOptions where
  defaultType : Option MessageTypeResult := none
  validTypes : List String := CCChangelog.validTypes

/-- Model of the JavaScript String replace with a string pattern: only the
first occurrence is replaced. -/
def replaceFirstL (pat repl : List Char) : List Char → List Char
  | [] => []
  | c :: rest =>
    if pat.isPrefixOf (c :: rest) then repl ++ (c :: rest).drop pat.length
    else c :: replaceFirstL pat repl rest

def replaceFirst (s pat repl : String) : String :=
  String.mk (replaceFirstL pat.data repl.data s.data)

/-- One iteration of the getCommits message loop (src/index.js lines 413-424):
parse; when a type was detected but is not allowed, break the separator and
reparse with the type discarded; then normalize, carrying the possibly
rewritten orig and the raw message. The inner normalization always receives
the module-level valid types. -/
def processMessage (parser : String → Except JsErr Commit) (options : GetCommitsOptions)
    (message : String) : Except JsErr Commit := do
  let raw := message
  let orig := message
  let commit ← parser orig
  let type := commit.type
  let (commit, orig, type) ←
    match type with
    | some t =>
      if !(options.validTypes.contains t) then do
        let orig2 := replaceFirst orig ": " " "
        let c2 ← parser orig2
        pure (c2, orig2, (none : Option String))
      else pure (commit, orig, type)
    | none => pure (commit, orig, type)
  let parsed ← parseCommitMessage { commit with type := type, orig := orig, raw := raw } parser
    { defaultType := options.defaultType, validTypes := validTypes }
  pure { parsed with orig := orig, raw := raw }

/-- Grouping key of a normalized commit: type, or type underscore subtype. -/
def commitKey (c : Commit) : String :=
  let t := c.type.getD "undefined"
  match c.subType with
  | some st => t ++ "_" ++ st
  | none => t

/-- Push a commit onto its bucket, in insertion order. -/
def pushGroup (groups : List (String × List Commit)) (key : String) (c : Commit) :
    List (String × List Commit) :=
  upsertAppend groups key [c]

/-- Model of the JavaScript Array indexOf: the index of the first occurrence,
or minus one when the element is absent. -/
def jsIndexOf (l : List String) (x : String) : Int :=
  match l.findIdx? (fun y => y == x) with
  | some i => Int.ofNat i
  | none => -1

/-- The bucket reordering of getCommits (src/index.js lines 434-436): a stable
sort of the group entries by the index of their key in the valid-types list.
indexOf yields minus one for a missing key and is never nullish, so the
written fallback to Infinity is dead and missing keys sort first. -/
def sortGroupsEntries (vt : List String) (groups : List (String × List Commit)) :
    List (String × List Commit) :=
  stableSort (fun a b => decide (jsIndexOf vt a.1 ≤ jsIndexOf vt b.1)) groups

/-- The loop of getCommits: skip empty messages, process the rest, stop with
the accumulated state and a failure flag when a message raises. -/
def getCommitsGo (parser : String → Except JsErr Commit) (options : GetCommitsOptions) :
    List String → List Commit → List (String × List Commit) →
    List Commit × List (String × List Commit) × Bool
  | [], commits, groups => (commits, groups, true)
  | m :: rest, commits, groups =>
    if m == "" then getCommitsGo parser options rest commits groups
    else
      match processMessage parser options m with
      | Except.error _ => (commits, groups, false)
      | Except.ok commit =>
        getCommitsGo parser options rest (commits ++ [commit])
          (pushGroup groups (commitKey commit) commit)

/-- Model of getCommits (src/index.js lines 403-443). The whole message loop
and the final bucket reordering run inside one try whose catch only logs, so on
a parser exception the commits and buckets accumulated so far are returned
as they stand, without the reordering. -/
def getCommits (messages : List String) (parser : String → Except JsErr Commit)
    (options : GetCommitsOptions := {}) : List Commit × List (String × List Commit) :=
  match getCommitsGo parser options messages [] [] with
  | (commits, groups, true) => (commits, sortGroupsEntries options.validTypes groups)
  | (commits, groups, false) => (commits, groups)

/-- A notice check: a literal string or a regular-expression value, the latter
carried as its test function. -/
inductive Check where
  | str (s : String)
  | regex (test : String → Bool)

/-- Modelled semantics of building a RegExp from a pattern string and testing
it, for pattern strings free of regular-expression metacharacters, the only
ones exercised here: the test is substring containment of the pattern. -/
def jsRegExpTest (pattern s : String) : Bool := containsSubList pattern.data s.data

/-- The filter callback of getNotices applied note by note, threading the
mutable check variable of the enclosing scope: a slash-delimited string check
is replaced by a RegExp the first time the callback runs, and a RegExp check
raises a TypeError because RegExp values have no startsWith method. -/
def filterNotes : Check → List Note → Except JsErr (List Note)
  | _, [] => pure []
  | Check.regex _, _ :: _ => throw (JsErr.typeError "check.startsWith is not a function")
  | Check.str s, note :: rest => do
    let check := if startsWithStr s "/" && endsWithStr s "/" then Check.regex (jsRegExpTest s)
      else Check.str s
    let keep :=
      match check with
      | Check.regex t => t note.title
      | Check.str s2 => note.title == s2
    let tail ← filterNotes check rest
    pure (if keep then note :: tail else tail)

/-- Model of getNotices (src/index.js lines 454-469): filter the structured
notes by the check, defaulted to the label; fall back to the standalone
breaking text when nothing matched and the label is the breaking label. -/
def getNotices (commit : Commit) (label : String) (check : Option Check := none)
    (breakingLabel : String := "BREAKING CHANGE") : Except JsErr (List String) := do
  let check := check.getD (Check.str label)
  let kept ← filterNotes check commit.notes
  let notices := kept.map Note.text
  if notices.length != 0 then
    pure notices
  else if label == breakingLabel then
    match commit.breaking with
    | some b => pure [b]
    | none => pure []
  else pure []

/-- A release record: a tag, optional display name, a display date that is
empty when unknown, optional header and footer overrides, the raw messages and
the commits bucketed by type key in insertion order. -/
structure Release where
  tag : String := ""
  name : Option String := none
  date : String := ""
  description : Option String := none
  header : Option String := none
  footer : Option String := none
  messages : List String := []
  commits : List (String × List Commit) := []
deriving Repr, DecidableEq, Inhabited

/-- Notice options of the renderer; unset fields are none until the renderer
fills them in place. -/
structure NoticeOptions where
  keys : Option (List (String × Check)) := none
  all : Option Bool := none
  inFooter : Option Bool := none

/-- Renderer options; unset fields are none until the renderer fills them in
place on the caller-supplied object. -/
structure BuildOptions where
  coerce : Option Bool := none
  onlyFirst : Option Bool := none
  onlyBody : Option Bool := none
  types : Option (List (String × String)) := none
  notice : Option NoticeOptions := none

/-- The test function of the default notice pattern, the regular expression
matching exactly the titles BREAKING CHANGE and BREAKING-CHANGE. -/
def breakingTest (t : String) : Bool := t == "BREAKING CHANGE" || t == "BREAKING-CHANGE"

/-- The default notice keys of the renderer (src/index.js line 501). -/
def defaultNoticeKeys : List (String × Check) := [("BREAKING CHANGES", Check.regex breakingTest)]

/-- The default visible-types mapping of the renderer (src/index.js line 499). -/
def defaultTypesMap : List (String × String) :=
  [("feat_add", "Added"), ("feat_change", "Changed"), ("feat_remove", "Removed"), ("fix", "Fixed")]

/-- Model of escapeHTML (src/index.js lines 55-60): five sequential global
replacements, ampersand first. -/
def escapeHTML (str : String) : String :=
  replaceAllStr (replaceAllStr (replaceAllStr (replaceAllStr (replaceAllStr str
    "&" "&amp;") "<" "&lt;") ">" "&gt;") "\"" "&quot;") "\x27" "&#39;"

/-- Display text of a commit bullet: the first present of subject, breaking
text, header, merge description and revert header; when every one is missing
the escaping call dereferences undefined and raises. -/
def commitDisplay (c : Commit) : Except JsErr String :=
  match (((c.subject.orElse (fun _ => c.breaking)).orElse (fun _ => c.header)).orElse
      (fun _ => c.merge)).orElse (fun _ => c.revert) with
  | some t => pure (escapeHTML t)
  | none => throw (JsErr.typeError "Cannot read properties of undefined (reading replace)")

/-- Inner notice loop of the renderer: run the extractor for every configured
label on one commit, appending nonempty results under their label. -/
def noticesForCommit (commit : Commit) : List (String × Check) → List (String × List String) →
    Except JsErr (List (String × List String))
  | [], acc => pure acc
  | (label, check) :: rest, acc => do
    let commitNotices ← getNotices commit label (some check)
    let acc := if commitNotices.length != 0 then upsertAppend acc label commitNotices else acc
    noticesForCommit commit rest acc

def noticesForCommits (nkeys : List (String × Check)) : List Commit →
    List (String × List String) → Except JsErr (List (String × List String))
  | [], acc => pure acc
  | c :: rest, acc => do
    let acc ← noticesForCommit c nkeys acc
    noticesForCommits nkeys rest acc

/-- Notice collection of the renderer (src/index.js lines 516-529): scan every
bucket, or only the buckets of visible types, and accumulate extracted notices
under their labels. -/
def collectNotices (nall : Bool) (typeKeys : List String) (nkeys : List (String × Check))
    (commitsMap : List (String × List Commit)) : List (String × List Commit) →
    List (String × List String) → Except JsErr (List (String × List String))
  | [], acc => pure acc
  | (ty, _) :: rest, acc => do
    let acc ←
      if nall || typeKeys.contains ty then
        noticesForCommits nkeys ((lookupStr commitsMap ty).getD []) acc
      else pure acc
    collectNotices nall typeKeys nkeys commitsMap rest acc

/-- The notice block lines: one subsection heading per label, one bullet per
note, a blank line after each subsection. -/
def noticeBlock (notices : List (String × List String)) : List String :=
  notices.foldl (fun acc p => acc ++ ["### " ++ p.1, ""] ++ p.2.map (fun i => "- " ++ i) ++ [""]) []

/-- Group a bucket of commits by scope, the missing scope keyed by the empty
string, in first-seen order. -/
def scopeGroups (commits : List Commit) : List (String × List Commit) :=
  commits.foldl (fun acc c => pushGroup acc (c.scope.getD "") c) []

/-- Bullet lines of one scope group: a scope label line when the scope is
nonempty, then one bullet per commit, indented under a scope label. -/
def renderScope (scope : String) (commits : List Commit) : Except JsErr (List String) := do
  let bullets ← commits.mapM (fun c => do
    let t ← commitDisplay c
    pure ((if scope != "" then "  " else "") ++ "- " ++ t))
  pure ((if scope != "" then ["- " ++ scope] else []) ++ bullets)

/-- The type sections of one release (src/index.js lines 550-567): for every
configured visible type with a bucket present, a heading, then the scope
groups in lexicographic scope order, then a blank line. An empty bucket still
renders its heading, since an empty array is truthy. -/
def renderTypes (typesMap : List (String × String)) (commitsMap : List (String × List Commit)) :
    Except JsErr (List String) :=
  match typesMap with
  | [] => pure []
  | (ty, title) :: rest => do
    let here ←
      match lookupStr commitsMap ty with
      | none => pure []
      | some bucket => do
        let scopes := scopeGroups bucket
        let keys := stableSort strLeB (scopes.map Prod.fst)
        let parts ← keys.mapM (fun sc => renderScope sc ((lookupStr scopes sc).getD []))
        pure (["### " ++ title, ""] ++ parts.flatten ++ [""])
    let restLines ← renderTypes rest commitsMap
    pure (here ++ restLines)

/-- Emission of one release with a nonempty commit map (src/index.js lines
510-576): optional version heading with the coerced or raw version and the
date, notices gathered and emitted before or after the type sections, optional
release header and footer. A null coerce result prints as the string null in
the heading, as a template literal renders it. -/
def emitRelease (coerceB onlyBody : Bool) (typesMap : List (String × String))
    (nkeys : List (String × Check)) (nall ninFooter : Bool) (version : String)
    (release : Release) (lines : List String) : Except JsErr (List String) := do
  let lines :=
    if !onlyBody then
      lines ++ ["", "## " ++
        (if coerceB then
          (match coerce true version with
           | some sv => renderSemVer sv
           | none => "null")
         else version) ++
        (if release.date != "" then " (" ++ release.date ++ ")" else ""), ""]
    else lines
  let notices ←
    if nkeys.length != 0 then
      collectNotices nall (typesMap.map Prod.fst) nkeys release.commits release.commits []
    else pure []
  let notice := noticeBlock notices
  let lines :=
    match release.header with
    | some h => lines ++ [h, ""]
    | none => lines
  let lines :=
    if notice.length != 0 && !ninFooter then lines ++ [String.intercalate "\n" notice, ""]
    else lines
  let typeLines ← renderTypes typesMap release.commits
  let lines := lines ++ typeLines
  let lines :=
    if notice.length != 0 && ninFooter then lines ++ [String.intercalate "\n" notice, ""]
    else lines
  let lines :=
    match release.footer with
    | some f => lines ++ [f, ""]
    | none => lines
  pure lines

/-- The release loop of the renderer: releases with an empty commit map are
not emitted, and with onlyFirst set the loop breaks after the first release,
emitted or not. -/
def buildLoop (coerceB onlyBody onlyFirst : Bool) (typesMap : List (String × String))
    (nkeys : List (String × Check)) (nall ninFooter : Bool) :
    List (String × Release) → List String → Except JsErr (List String)
  | [], lines => pure lines
  | (version, release) :: rest, lines => do
    let lines ←
      if release.commits.length != 0 then
        emitRelease coerceB onlyBody typesMap nkeys nall ninFooter version release lines
      else pure lines
    if onlyFirst then pure lines
    else buildLoop coerceB onlyBody onlyFirst typesMap nkeys nall ninFooter rest lines

/-- Model of buildChangelog (src/index.js lines 494-581). The source fills the
missing option fields in place on the very options object the caller handed
in, before any rendering; this mutation is modelled by returning, next to the
produced lines, the options record as it stands after the call. -/
def buildChangelog (releases : List (String × Release)) (options : BuildOptions := {}) :
    Except JsErr (List String) × BuildOptions :=
  let coerceB := options.coerce.getD true
  let onlyFirst := options.onlyFirst.getD false
  let onlyBody := options.onlyBody.getD false
  let typesMap := options.types.getD defaultTypesMap
  let noticeObj := options.notice.getD {}
  let nkeys := noticeObj.keys.getD defaultNoticeKeys
  let nall := noticeObj.all.getD false
  let ninFooter := noticeObj.inFooter.getD true
  let resolved : BuildOptions :=
    { coerce := some coerceB, onlyFirst := some onlyFirst, onlyBody := some onlyBody,
      types := some typesMap,
      notice := some { keys := some nkeys, all := some nall, inFooter := some ninFooter } }
  let lines0 : List String := if !onlyBody then ["# Changelog", ""] else []
  (buildLoop coerceB onlyBody onlyFirst typesMap nkeys nall ninFooter releases lines0, resolved)

/-- Join parts with dots, the inverse direction of splitDot. -/
def joinDot : List (List Char) → List Char
  | [] => []
  | [g] => g
  | g :: gs => g ++ '.' :: joinDot gs

/-- Accumulator of one release bucket while grouping: names and dates are
collected as lists and joined afterwards. -/
structure ReleaseAcc where
  tag : String
  name : List String
  date : List String
  messages : List String
  commits : List (String × List Commit)
deriving Repr, DecidableEq, Inhabited

/-- Store an accumulator at a key, keeping its position when the key is
present and appending it when new. -/
def setGroup : List (String × ReleaseAcc) → String → ReleaseAcc → List (String × ReleaseAcc)
  | [], key, acc => [(key, acc)]
  | (k0, a0) :: t, key, acc =>
    if k0 == key then (k0, acc) :: t else (k0, a0) :: setGroup t key acc

/-- The accumulation body of the groupReleases loop (src/index.js lines
732-738): a truthy name and date are collected, the messages spread in, and
every commit bucket of the release appended under its type key. -/
def accumulateRelease (acc : ReleaseAcc) (release : Release) : ReleaseAcc :=
  let acc :=
    match release.name with
    | some n => if n != "" then { acc with name := acc.name ++ [n] } else acc
    | none => acc
  let acc := if release.date != "" then { acc with date := acc.date ++ [release.date] } else acc
  let acc := { acc with messages := acc.messages ++ release.messages }
  { acc with commits :=
    release.commits.foldl (fun cm p => upsertAppend cm p.1 p.2) acc.commits }

/-- One iteration of the groupReleases loop (src/index.js lines 723-739):
coerce the tag without prerelease, render it and split on dots; skip the
release unless exactly three parts result; drop the patch part, and the minor
part too when grouping by major; then accumulate the release into the bucket
of the computed key, a fresh empty bucket when the key is new. -/
def groupStep (groupBy : String) (groups : List (String × ReleaseAcc)) (entry : String × Release) :
    List (String × ReleaseAcc) :=
  let version := entry.1
  let release := entry.2
  let parts := splitDot ((match coerce false version with
    | some sv => renderSemVer sv
    | none => "").data)
  if parts.length != 3 then groups
  else
    let parts := parts.dropLast
    let parts := if asciiLower groupBy == "major" then parts.dropLast else parts
    let group := String.mk (joinDot parts)
    let acc := (lookupStr groups group).getD
      { tag := group, name := [], date := [], messages := [], commits := [] }
    setGroup groups group (accumulateRelease acc release)

/-- The finishing pass of groupReleases (lines 741-744): join the collected
names into one comma-separated string, empty joining to null, and the dates
likewise, empty joining to the empty string. -/
def finalizeAcc (acc : ReleaseAcc) : Release :=
  let joinedName := String.intercalate ", " acc.name
  { tag := acc.tag,
    name := if joinedName == "" then none else some joinedName,
    date := String.intercalate ", " acc.date,
    messages := acc.messages,
    commits := acc.commits }

/-- Model of groupReleases (src/index.js lines 720-747). -/
def groupReleases (releases : List (String × Release)) (groupBy : String := "minor") :
    List (String × Release) :=
  let groups := releases.foldl (groupStep groupBy) []
  groups.map (fun p => (p.1, finalizeAcc p.2))

/-- Commits a grouped result holds under a bucket key and type key, the empty
list when either key is absent. -/
def bucketCommits (g : List (String × Release)) (key ty : String) : List Commit :=
  ((lookupStr g key).map (fun r => (lookupStr r.commits ty).getD [])).getD []

/-- The bucket key the specification prescribes when grouping by minor: the
major and minor components, dot-separated. -/
def specKeyMinor (sv : SemVer) : String := natToStr sv.major ++ "." ++ natToStr sv.minor

/-- The bucket key the specification prescribes when grouping by major. -/
def specKeyMajor (sv : SemVer) : String := natToStr sv.major

/-- Modelled from the spec: the external Commit Header Parser is an out-of-scope
collaborator, specified only as a function from one raw message to a structured
record with type, scope, breaking flag, subject, merge and revert detection.
This concrete instance covers the fixed messages the witnesses exercise:
conventional feat headers, a merge header, a parse failure on the message boom,
and a bare header record for anything else. -/
def testParser : String → Except JsErr Commit := fun m =>
  if m == "boom" then Except.error (JsErr.error "unexpected token")
  else if m == "feat: add login" then
    Except.ok { type := some "feat", subject := some "add login", header := some m }
  else if m == "feat: add x" then
    Except.ok { type := some "feat", subject := some "add x", header := some m }
  else if m == "feat: add y" then
    Except.ok { type := some "feat", subject := some "add y", header := some m }
  else if m == "merge branch dev into main" then
    Except.ok { merge := some "branch dev into main", header := some m }
  else Except.ok { header := some m }

/-- A fix commit used by the renderer fixtures. -/
def fixCommit : Commit :=
  { type := some "fix", subject := some "resolve crash", header := some "fix: resolve crash" }

/-- A release with no commit buckets at all. -/
def relEmpty : Release := { tag := "2.0.0" }

/-- A release with one fix bucket. -/
def relFix : Release :=
  { tag := "1.0.0", date := "2024-01-02", commits := [("fix", [fixCommit])] }

/-- A release map whose first release is empty and whose second has commits. -/
def onlyFirstReleases : List (String × Release) := [("2.0.0", relEmpty), ("1.0.0", relFix)]

/-- A commit carrying a breaking-change footer note, for the extractor claims. -/
def notedCommit : Commit :=
  { type := some "feat", subject := some "rework api",
    notes := [⟨"BREAKING CHANGE", "drops node 14"⟩] }

/-- Fixture commits of the aggregation example of the specification. -/
def exCommitFix : Commit := { subject := some "Fix bug" }

def exCommitFeat : Commit := { subject := some "Add feature" }

def exCommitMajor : Commit := { subject := some "Major update" }

/-- The release tagged 1.2.3 of the aggregation example. -/
def exRelease123 : Release :=
  { name := some "Release 1", date := "2023-01-01", messages := ["Fix bug"],
    commits := [("fix", [exCommitFix])] }

/-- The release tagged 1.2.4 of the aggregation example. -/
def exRelease124 : Release :=
  { name := some "Release 2", date := "2023-01-15", messages := ["Add feature"],
    commits := [("feat", [exCommitFeat])] }

/-- The release tagged 1.3.0 of the aggregation example. -/
def exRelease130 : Release :=
  { name := some "Release 3", date := "2023-02-01", messages := ["Major update"],
    commits := [("feat", [exCommitMajor])] }

/-- The releases of the aggregation example: 1.2.3, 1.2.4 and 1.3.0. -/
def exReleases : List (String × Release) :=
  [("1.2.3", exRelease123), ("1.2.4", exRelease124), ("1.3.0", exRelease130)]

/-- A commit whose single note title contains the slash-delimited check only as
a substring. -/
def slashNoteCommit : Commit := { notes := [⟨"api /a/ change", "t1"⟩] }

/-- A commit with two plainly titled notes. -/
def twoNoteCommit : Commit := { notes := [⟨"A", "t1"⟩, ⟨"B", "t2"⟩] }

/-- The commits a batch of messages yields when each nonempty message is
processed successfully: empty messages are skipped, the rest normalized. -/
def okMessages (parser : String → Except JsErr Commit) (options : GetCommitsOptions)
    (msgs : List String) : List Commit :=
  (msgs.filter (fun m => m != "")).filterMap (fun m => (processMessage parser options m).toOption)

end CCChangelog

namespace CCChangelog

/-- C1: the claim, taken from the specification, says findPreviousVersion
discards every uncoercible entry of versions and proceeds, so that an entry
such as not-a-version never causes an error. The code dereferences the null
coerce result of such an entry before its Boolean filter can drop anything, so
the presence of the entry raises a TypeError, while the same call without the
entry succeeds; the dead filter documents the discarding intent. -/
theorem findPreviousVersion_throws_on_uncoercible_entry :
    findPreviousVersion ["not-a-version", "1.0.0", "1.1.0"] "1.1.0" "PATCH" =
      Except.error (JsErr.typeError "Cannot read properties of null (reading version)") ∧
    findPreviousVersion ["1.0.0", "1.1.0"] "1.1.0" "PATCH" = Except.ok (some "1.0.0") := by
  constructor <;> rfl

/-- C2: the claim says the grouping map of getCommits lists the caller-supplied
types first, in their order, with unlisted type keys after them. At this input
the commits arrive in the buckets feat_add then merge, the caller lists feat
and feat_add, and the returned map nevertheless starts with the unlisted merge
bucket: indexOf yields minus one for a missing key, never nullish, so the
written Infinity fallback is dead and unlisted keys sort first. -/
theorem getCommits_unlisted_type_sorts_first :
    ((getCommits ["feat: add login", "merge branch dev into main"] testParser
        { validTypes := ["feat", "feat_add"] }).2.map Prod.fst) = ["merge", "feat_add"] ∧
    ((getCommits ["feat: add login", "merge branch dev into main"] testParser
        { validTypes := ["feat", "feat_add"] }).1.map commitKey) = ["feat_add", "merge"] := by
  constructor <;> rfl

/-- C3: the claim, taken from the specification, says getNotices never throws,
for every check including the default breaking-change pattern. With that very
pattern and a commit carrying one structured note, the filter callback calls
startsWith on the RegExp value and raises a TypeError; the extractor is total
only while the commit has no notes. -/
theorem getNotices_throws_on_regex_check_with_note :
    getNotices notedCommit "BREAKING CHANGES" (some (Check.regex breakingTest))
        "BREAKING CHANGE" =
      Except.error (JsErr.typeError "check.startsWith is not a function") ∧
    getNotices ({ notedCommit with notes := [] }) "BREAKING CHANGES"
        (some (Check.regex breakingTest)) "BREAKING CHANGE" = Except.ok [] := by
  constructor <;> rfl

/-- C8: with forceType equal to feat the classifier returns type feat and picks
the subtype from the feature-add and feature-remove starts-with verb checks
alone, defaulting to change; the configured default type and the rest of the
cascade do not enter the result. -/
theorem getMessageType_forceType_feat (message : String)
    (defaultType : Option MessageTypeResult) :
    getMessageType message defaultType (some "feat") =
      { type := "feat",
        subType := some (if featAddMatch message then "add"
          else if featRemoveMatch message then "remove" else "change") } := by
  unfold getMessageType
  simp only [beq_self_eq_true, if_true]
  by_cases h1 : featAddMatch message <;> by_cases h2 : featRemoveMatch message <;>
    simp [h1, h2]

/-- C10: buildChangelog fills every unset option field in place on the very
options object the caller handed in, before rendering anything: after the call
the object carries the defaults for coerce, onlyFirst, onlyBody, types and the
three notice fields wherever the caller left them unset. The in-place mutation
is modelled by the options record the embedding returns next to the lines. -/
theorem buildChangelog_fills_caller_options (releases : List (String × Release))
    (o : BuildOptions) :
    (buildChangelog releases o).2 =
      { coerce := some (o.coerce.getD true),
        onlyFirst := some (o.onlyFirst.getD false),
        onlyBody := some (o.onlyBody.getD false),
        types := some (o.types.getD defaultTypesMap),
        notice := some { keys := some ((o.notice.getD {}).keys.getD defaultNoticeKeys),
                         all := some ((o.notice.getD {}).all.getD false),
                         inFooter := some ((o.notice.getD {}).inFooter.getD true) } } := rfl

/-- C4, counterexample: the claim says that with onlyFirst set the output
contains the sections of the first release in the given order that has at
least one commit bucket. Here the first release is empty and the second has a
fix bucket, yet the output is the bare title: the break sits outside the
emptiness check, so the loop stops after the first release even when nothing
was emitted. Without onlyFirst the very same map does render the Fixed
section. -/
theorem buildChangelog_onlyFirst_skips_claim_false :
    (buildChangelog onlyFirstReleases { onlyFirst := some true }).1 =
      Except.ok ["# Changelog", ""] ∧
    ¬ "### Fixed" ∈ ["# Changelog", ""] ∧
    "### Fixed" ∈ ((buildChangelog onlyFirstReleases {}).1.toOption.getD []) := by
  refine ⟨rfl, by decide, by decide⟩

/-- C6, counterexample: the claim says that for a literal string check a note
contributes exactly when its title equals the check. The string check slash a
slash is delimited by slashes, so the filter callback turns it into a RegExp,
and a note whose title merely contains the pattern is collected although the
title differs from the check. -/
theorem getNotices_slash_string_check_matches_pattern :
    getNotices slashNoteCommit "lbl" (some (Check.str "/a/")) "BREAKING CHANGE" =
      Except.ok ["t1"] ∧ ("api /a/ change" : String) ≠ "/a/" := by
  refine ⟨rfl, by decide⟩

/-- A check string that is not slash-delimited survives the filter unconverted,
and the filter keeps exactly the notes whose title equals it. -/
theorem filterNotes_plain_str (s : String)
    (h : (startsWithStr s "/" && endsWithStr s "/") = false) (notes : List Note) :
    filterNotes (Check.str s) notes = Except.ok (notes.filter (fun n => n.title == s)) := by
  induction notes with
  | nil => rfl
  | cons note rest ih =>
    simp only [filterNotes, h, if_false, Bool.false_eq_true, List.filter_cons]
    rw [ih]
    cases hk : (note.title == s) <;> simp [Except.bind, hk]

/-- C6, amended: for a literal string check that is not slash-delimited, a note
contributes to the result exactly when its title is string-equal to the check,
and no note with a differing title is collected; a string that both starts and
ends with a slash is instead converted to a pattern and tested against the
titles. -/
theorem getNotices_plain_string_check_exact (commit : Commit) (label s bl : String)
    (h : (startsWithStr s "/" && endsWithStr s "/") = false) :
    getNotices commit label (some (Check.str s)) bl =
      Except.ok
        (if ((commit.notes.filter (fun n => n.title == s)).map Note.text).length != 0 then
          (commit.notes.filter (fun n => n.title == s)).map Note.text
         else if label == bl then
          (match commit.breaking with
           | some b => [b]
           | none => [])
         else []) := by
  have hf := filterNotes_plain_str s h commit.notes
  simp only [getNotices, Option.getD_some, hf, Bind.bind, Except.bind]
  cases hL : commit.notes.filter (fun n => n.title == s) with
  | nil => cases hb : label == bl <;> cases hbr : commit.breaking <;> simp [hb, hbr] <;> rfl
  | cons n0 L => simp only [List.map_cons, List.length_cons]; rfl

theorem getNotices_plain_string_check_witness :
    ((startsWithStr "A" "/" && endsWithStr "A" "/") = false) ∧
    getNotices twoNoteCommit "A" (some (Check.str "A")) "BREAKING CHANGE" = Except.ok ["t1"] :=
  ⟨rfl, (getNotices_plain_string_check_exact twoNoteCommit "A" "A" "BREAKING CHANGE" rfl).trans
    (by rfl)⟩

/-- C4, amended: with onlyFirst set, buildChangelog stops after the first
release of the map in the given order, whether or not that release was
emitted; a release with no commit buckets is still not emitted, so when the
first release is empty the output is the bare title, or nothing under
onlyBody. -/
theorem buildChangelog_onlyFirst_stops_at_first (opts : BuildOptions) (v : String) (r : Release)
    (rest : List (String × Release)) (h : opts.onlyFirst = some true) :
    (buildChangelog ((v, r) :: rest) opts).1 = (buildChangelog [(v, r)] opts).1 ∧
    (r.commits = [] → (buildChangelog ((v, r) :: rest) opts).1 =
      Except.ok (if opts.onlyBody.getD false then [] else ["# Changelog", ""])) := by
  constructor
  · simp only [buildChangelog, h, Option.getD_some, buildLoop]
    simp
  · intro hc
    simp only [buildChangelog, h, Option.getD_some, buildLoop, hc]
    cases hob : opts.onlyBody.getD false <;> simp [hob, buildLoop] <;> rfl

theorem buildChangelog_onlyFirst_stops_witness :
    (({ onlyFirst := some true } : BuildOptions).onlyFirst = some true) ∧
    ((buildChangelog (("2.0.0", relEmpty) :: [("1.0.0", relFix)]) { onlyFirst := some true }).1 =
        (buildChangelog [("2.0.0", relEmpty)] { onlyFirst := some true }).1 ∧
      (relEmpty.commits = [] →
        (buildChangelog (("2.0.0", relEmpty) :: [("1.0.0", relFix)]) { onlyFirst := some true }).1 =
          Except.ok (if ({ onlyFirst := some true } : BuildOptions).onlyBody.getD false then []
            else ["# Changelog", ""]))) :=
  ⟨rfl, buildChangelog_onlyFirst_stops_at_first { onlyFirst := some true } "2.0.0" relEmpty
    [("1.0.0", relFix)] rfl⟩

/-- The grouping loop after an all-successful prefix stops at the failing
message with exactly the commits and buckets accumulated so far and the
failure flag set, whatever follows it. -/
theorem getCommitsGo_abort (parser : String → Except JsErr Commit)
    (options : GetCommitsOptions) (post : List String) (m : String) (hm : m ≠ "")
    (hfail : (processMessage parser options m).isOk = false) :
    ∀ (pre : List String) (cs : List Commit) (gs : List (String × List Commit)),
      (∀ x ∈ pre, x ≠ "" → (processMessage parser options x).isOk = true) →
      getCommitsGo parser options (pre ++ m :: post) cs gs =
        (cs ++ okMessages parser options pre,
         (okMessages parser options pre).foldl (fun g c => pushGroup g (commitKey c) c) gs,
         false) := by
  intro pre
  induction pre with
  | nil =>
    intro cs gs _
    obtain ⟨e, he⟩ : ∃ e, processMessage parser options m = Except.error e := by
      cases hp : processMessage parser options m with
      | error e => exact ⟨e, rfl⟩
      | ok c => rw [hp] at hfail; simp [Except.isOk, Except.toBool] at hfail
    simp [getCommitsGo, hm, he, okMessages]
  | cons x pre ih =>
    intro cs gs hpre
    by_cases hx : x = ""
    · subst hx
      simp only [List.cons_append, getCommitsGo, beq_self_eq_true, if_true, List.append_eq]
      rw [ih cs gs (fun y hy => hpre y (List.mem_cons_of_mem _ hy))]
      simp [okMessages]
    · have hok := hpre x (List.mem_cons_self x pre) hx
      obtain ⟨c, hc⟩ : ∃ c, processMessage parser options x = Except.ok c := by
        cases hp : processMessage parser options x with
        | error e => rw [hp] at hok; simp [Except.isOk, Except.toBool] at hok
        | ok c => exact ⟨c, rfl⟩
      simp only [List.cons_append, getCommitsGo, List.append_eq]
      rw [if_neg (by simp [hx]), hc]
      simp only []
      rw [ih (cs ++ [c]) (pushGroup gs (commitKey c) c)
        (fun y hy => hpre y (List.mem_cons_of_mem _ hy))]
      simp [okMessages, hx, hc, Except.toOption, List.filterMap_cons]

/-- C7: when normalizing some message raises, getCommits does not propagate
the exception and returns exactly the commits fully processed before the
failing message, bucketed in insertion order and without the final
reordering; no message after the failing one contributes, so the result does
not depend on what follows. -/
theorem getCommits_aborts_batch (parser : String → Except JsErr Commit)
    (options : GetCommitsOptions) (pre : List String) (m : String) (post : List String)
    (hpre : ∀ x ∈ pre, x ≠ "" → (processMessage parser options x).isOk = true)
    (hm : m ≠ "") (hfail : (processMessage parser options m).isOk = false) :
    getCommits (pre ++ m :: post) parser options =
      (okMessages parser options pre,
       (okMessages parser options pre).foldl (fun g c => pushGroup g (commitKey c) c) []) ∧
    getCommits (pre ++ m :: post) parser options = getCommits (pre ++ [m]) parser options := by
  have h1 := getCommitsGo_abort parser options post m hm hfail pre [] [] hpre
  have h2 := getCommitsGo_abort parser options [] m hm hfail pre [] [] hpre
  constructor
  · unfold getCommits
    rw [h1]
    rfl
  · unfold getCommits
    rw [h1, show pre ++ [m] = pre ++ m :: [] from rfl, h2]

/-- When every entry coerces, the throwing map over the versions returns the
coerced list. -/
theorem mapM_coerce_ok (versions : List String) (cs : List SemVer)
    (h : versions.mapM (coerce true) = some cs) :
    (versions.mapM (fun v =>
      match coerce true v with
      | none => (throw (JsErr.typeError "Cannot read properties of null (reading version)") :
          Except JsErr SemVer)
      | some c => pure c)) = pure cs := by
  induction versions generalizing cs with
  | nil =>
    simp only [List.mapM_nil] at h ⊢
    cases h
    rfl
  | cons v rest ih =>
    rw [List.mapM_cons] at h ⊢
    cases hv : coerce true v with
    | none => rw [hv] at h; simp at h
    | some c0 =>
      rw [hv] at h
      cases hr : rest.mapM (coerce true) with
      | none => rw [hr] at h; simp at h
      | some cs0 =>
        rw [hr] at h
        simp only [Option.pure_def, Option.bind_eq_bind, Option.some_bind,
          Option.some.injEq] at h
        rw [ih cs0 hr]
        rw [← h]
        rfl

/-- C5: at PATCH granularity, over every well-formed call whose entries all
coerce, findPreviousVersion returns the element immediately preceding the
target in the sorted coerced sequence, and none when the target is the first
element or is not found, re-prefixing a v when the target carried one; in
particular over 0.0.0, 0.0.1, 0.0.2, 0.1.0 the predecessor of 0.1.0 is 0.0.2
and 0.0.0 has none. -/
theorem findPreviousVersion_patch_predecessor :
    (∀ (versions : List String) (target : String) (cs : List SemVer) (c : SemVer),
      versions.mapM (coerce true) = some cs →
      coerce true target = some c →
      findPreviousVersion versions target "PATCH" =
        Except.ok ((specPatchPred (sortVersions cs) c).map
          (fun m => if startsWithStr target "v" then "v" ++ m else m))) ∧
    findPreviousVersion ["0.0.0", "0.0.1", "0.0.2", "0.1.0"] "0.1.0" "PATCH" =
      Except.ok (some "0.0.2") ∧
    findPreviousVersion ["0.0.0", "0.0.1", "0.0.2", "0.1.0"] "0.0.0" "PATCH" =
      Except.ok none := by
  refine ⟨?_, rfl, rfl⟩
  intro versions target cs c hvs ht
  simp only [findPreviousVersion, show asciiUpper "PATCH" = "PATCH" from rfl,
    show (!(["MAJOR", "MINOR", "PATCH"].contains "PATCH")) = false from rfl,
    Bool.false_eq_true, ite_false, ht, mapM_coerce_ok versions cs hvs, pure_bind]
  cases hidx : (sortVersions cs).findIdx? (fun v => semverEq v c) with
  | none => simp [specPatchPred, hidx]; rfl
  | some i =>
    cases i with
    | zero => simp [specPatchPred, hidx]; rfl
    | succ j => simp [specPatchPred, hidx]; rfl

theorem findPreviousVersion_patch_witness :
    (["0.0.0", "0.1.0"].mapM (coerce true) = some [⟨0, 0, 0, []⟩, ⟨0, 1, 0, []⟩]) ∧
    (coerce true "0.1.0" = some ⟨0, 1, 0, []⟩) ∧
    findPreviousVersion ["0.0.0", "0.1.0"] "0.1.0" "PATCH" =
      Except.ok ((specPatchPred (sortVersions [⟨0, 0, 0, []⟩, ⟨0, 1, 0, []⟩]) ⟨0, 1, 0, []⟩).map
        (fun m => if startsWithStr "0.1.0" "v" then "v" ++ m else m)) :=
  ⟨by decide, by decide,
    findPreviousVersion_patch_predecessor.1 ["0.0.0", "0.1.0"] "0.1.0"
      [⟨0, 0, 0, []⟩, ⟨0, 1, 0, []⟩] ⟨0, 1, 0, []⟩ (by decide) (by decide)⟩

theorem getCommits_aborts_batch_witness :
    (∀ x ∈ ["feat: add x"], x ≠ "" → (processMessage testParser {} x).isOk = true) ∧
    ("boom" : String) ≠ "" ∧
    (processMessage testParser {} "boom").isOk = false ∧
    (getCommits (["feat: add x"] ++ "boom" :: ["feat: add y"]) testParser {} =
        (okMessages testParser {} ["feat: add x"],
         (okMessages testParser {} ["feat: add x"]).foldl
           (fun g c => pushGroup g (commitKey c) c) []) ∧
      getCommits (["feat: add x"] ++ "boom" :: ["feat: add y"]) testParser {} =
        getCommits (["feat: add x"] ++ ["boom"]) testParser {}) :=
  ⟨by decide, by decide, by decide,
    getCommits_aborts_batch testParser {} ["feat: add x"] "boom" ["feat: add y"]
      (by decide) (by decide) (by decide)⟩

/-- A decimal digit character is never a dot. -/
theorem digitOf_ne_dot (d : Nat) : digitOf d ≠ '.' := by
  unfold digitOf
  split_ifs <;> decide

/-- Every character the decimal renderer emits is a digit character or came
from the accumulator. -/
theorem natDigits_mem (fuel : Nat) : ∀ (n : Nat) (acc : List Char) (c : Char),
    c ∈ natDigits fuel n acc → c ∈ acc ∨ ∃ d, c = digitOf d := by
  induction fuel with
  | zero => intro n acc c hc; exact Or.inl hc
  | succ fuel ih =>
    intro n acc c hc
    unfold natDigits at hc
    by_cases h : n < 10
    · rw [if_pos h] at hc
      rcases List.mem_cons.mp hc with h1 | h1
      · exact Or.inr ⟨n, h1⟩
      · exact Or.inl h1
    · rw [if_neg h] at hc
      rcases ih (n / 10) (digitOf (n % 10) :: acc) c hc with h1 | h1
      · rcases List.mem_cons.mp h1 with h2 | h2
        · exact Or.inr ⟨n % 10, h2⟩
        · exact Or.inl h2
      · exact Or.inr h1

/-- The decimal rendering of a natural number never contains a dot. -/
theorem natToStr_no_dot (n : Nat) : '.' ∉ (natToStr n).data := by
  intro h
  rcases natDigits_mem (n + 1) n [] '.' h with h1 | ⟨d, h1⟩
  · simp at h1
  · exact digitOf_ne_dot d h1.symm

/-- Splitting a dot-free run yields that run alone. -/
theorem splitDot_no_dot (l : List Char) (h : '.' ∉ l) : splitDot l = [l] := by
  induction l with
  | nil => rfl
  | cons c rest ih =>
    have hc : ¬ c = '.' := fun hc => h (hc ▸ List.mem_cons_self c rest)
    have hr : '.' ∉ rest := fun hr => h (List.mem_cons_of_mem c hr)
    unfold splitDot
    rw [if_neg hc, ih hr]

/-- Splitting a dot-free run, a dot, and a rest starts with the run. -/
theorem splitDot_append (a : List Char) (rest : List Char) (h : '.' ∉ a) :
    splitDot (a ++ '.' :: rest) = a :: splitDot rest := by
  induction a with
  | nil =>
    show splitDot ('.' :: rest) = [] :: splitDot rest
    unfold splitDot
    rw [if_pos rfl, ← splitDot.eq_def]
  | cons c t ih =>
    have hc : ¬ c = '.' := fun hc => h (hc ▸ List.mem_cons_self c t)
    have ht : '.' ∉ t := fun hr => h (List.mem_cons_of_mem c hr)
    rw [List.cons_append]
    unfold splitDot
    rw [if_neg hc, ih ht, ← splitDot.eq_def]

/-- String construction from concatenated data is string concatenation. -/
theorem strMk_append_data (a b : String) : String.mk (a.data ++ b.data) = a ++ b := by
  cases a
  cases b
  rfl

/-- The character data of the canonical rendering of a prerelease-free version:
the three decimal components joined by dots. -/
theorem renderSemVer_data (M m p : Nat) :
    (renderSemVer ⟨M, m, p, []⟩).data =
      (natToStr M).data ++ '.' :: ((natToStr m).data ++ '.' :: (natToStr p).data) := by
  show (natToStr M ++ "." ++ natToStr m ++ "." ++ natToStr p ++
    (if ([] : List String).isEmpty then "" else "-" ++ String.intercalate "." [])).data = _
  simp [String.data_append]

/-- Splitting the canonical rendering of a prerelease-free version gives its
three components. -/
theorem splitDot_render (M m p : Nat) :
    splitDot (renderSemVer ⟨M, m, p, []⟩).data =
      [(natToStr M).data, (natToStr m).data, (natToStr p).data] := by
  rw [renderSemVer_data]
  rw [splitDot_append _ _ (natToStr_no_dot M)]
  rw [splitDot_append _ _ (natToStr_no_dot m)]
  rw [splitDot_no_dot _ (natToStr_no_dot p)]

/-- The parse step of coerce without includePrerelease yields an empty
prerelease. -/
theorem coerceParse_false_pre (cs : List Char) : (coerceParse false cs).prerelease = [] := by
  unfold coerceParse
  repeat' split
  all_goals first | rfl | simp_all

/-- The scanning loop of coerce without includePrerelease always yields an
empty prerelease. -/
theorem coerceScan_false_pre : ∀ (l : List Char) (sv : SemVer),
    coerceScan false l = some sv → sv.prerelease = [] := by
  intro l
  induction l with
  | nil => intro sv h; simp [coerceScan] at h
  | cons c rest ih =>
    intro sv h
    unfold coerceScan at h
    split at h
    · have h1 : coerceParse false (c :: rest) = sv := by injection h
      exact h1 ▸ coerceParse_false_pre (c :: rest)
    · exact ih sv h

/-- Coercion without includePrerelease always yields an empty prerelease. -/
theorem coerce_false_pre (s : String) (sv : SemVer) (h : coerce false s = some sv) :
    sv.prerelease = [] :=
  coerceScan_false_pre s.data sv h

/-- Lookup at the upserted key returns the old values extended. -/
theorem lookupStr_upsert_self {α : Type} (m : List (String × List α)) (k : String) (vs : List α) :
    lookupStr (upsertAppend m k vs) k = some ((lookupStr m k).getD [] ++ vs) := by
  induction m with
  | nil => simp [upsertAppend, lookupStr]
  | cons q t ih =>
    obtain ⟨k0, v0⟩ := q
    unfold upsertAppend
    split
    · rename_i hk
      simp [lookupStr, List.find?, hk]
    · rename_i hk
      simp only [Bool.not_eq_true] at hk
      simp [lookupStr, List.find?, hk] at ih ⊢
      exact ih

/-- Lookup at another key is unchanged by an upsert. -/
theorem lookupStr_upsert_ne {α : Type} (m : List (String × List α)) (k : String) (vs : List α)
    (k2 : String) (h : (k2 == k) = false) :
    lookupStr (upsertAppend m k vs) k2 = lookupStr m k2 := by
  have hne0 : (k == k2) = false := by
    simp only [beq_eq_false_iff_ne] at h ⊢
    exact fun he => h he.symm
  induction m with
  | nil => simp [upsertAppend, lookupStr, List.find?, hne0]
  | cons q t ih =>
    obtain ⟨k0, v0⟩ := q
    unfold upsertAppend
    split
    · rename_i hk
      have hk2 : k0 = k := by simpa [beq_iff_eq] using hk
      have hne : (k0 == k2) = false := by
        simp only [beq_eq_false_iff_ne] at hne0 ⊢
        exact fun he => hne0 (hk2 ▸ he)
      simp [lookupStr, List.find?, hne]
    · rename_i hk
      simp only [lookupStr, List.find?] at ih ⊢
      cases hc : (k0 == k2) <;> simp [hc, ih]

/-- The keys after an upsert: unchanged when the key was present, the key
appended when new. -/
theorem upsert_keys {α : Type} (m : List (String × List α)) (k : String) (vs : List α) :
    (upsertAppend m k vs).map Prod.fst =
      if (lookupStr m k).isSome then m.map Prod.fst else m.map Prod.fst ++ [k] := by
  induction m with
  | nil => simp [upsertAppend, lookupStr]
  | cons q t ih =>
    obtain ⟨k0, v0⟩ := q
    unfold upsertAppend
    split
    · rename_i hk
      simp [lookupStr, List.find?, hk]
    · rename_i hk
      simp only [Bool.not_eq_true] at hk
      simp only [lookupStr, List.find?, hk, List.map_cons] at ih ⊢
      cases hs : List.find? (fun p => p.1 == k) t with
      | none =>
        simp only [hs] at ih ⊢
        simp only [Option.map_none', Option.isSome_none, Bool.false_eq_true, if_false] at ih ⊢
        rw [ih]
        simp
      | some q2 =>
        simp only [hs] at ih ⊢
        simp only [Option.map_some', Option.isSome_some, if_true] at ih ⊢
        rw [ih]

/-- Lookup at the stored key returns the stored accumulator. -/
theorem lookupStr_setGroup_self (g : List (String × ReleaseAcc)) (k : String) (acc : ReleaseAcc) :
    lookupStr (setGroup g k acc) k = some acc := by
  induction g with
  | nil => simp [setGroup, lookupStr]
  | cons q t ih =>
    obtain ⟨k0, a0⟩ := q
    unfold setGroup
    split
    · rename_i hk
      simp [lookupStr, List.find?, hk]
    · rename_i hk
      simp only [Bool.not_eq_true] at hk
      simp only [lookupStr, List.find?, hk] at ih ⊢
      exact ih

/-- The keys after storing an accumulator: unchanged when the key was present,
the key appended when new. -/
theorem setGroup_keys (g : List (String × ReleaseAcc)) (k : String) (acc : ReleaseAcc) :
    (setGroup g k acc).map Prod.fst =
      if (lookupStr g k).isSome then g.map Prod.fst else g.map Prod.fst ++ [k] := by
  induction g with
  | nil => simp [setGroup, lookupStr]
  | cons q t ih =>
    obtain ⟨k0, a0⟩ := q
    unfold setGroup
    split
    · rename_i hk
      simp [lookupStr, List.find?, hk]
    · rename_i hk
      simp only [Bool.not_eq_true] at hk
      simp only [lookupStr, List.find?, hk, List.map_cons] at ih ⊢
      cases hs : List.find? (fun p => p.1 == k) t with
      | none =>
        simp only [hs] at ih ⊢
        simp only [Option.map_none', Option.isSome_none, Bool.false_eq_true, if_false] at ih ⊢
        rw [ih]
        simp
      | some q2 =>
        simp only [hs] at ih ⊢
        simp only [Option.map_some', Option.isSome_some, if_true] at ih ⊢
        rw [ih]

/-- A key outside the key list of an association list looks up to none. -/
theorem lookupStr_eq_none {α : Type} (m : List (String × α)) (k : String) :
    k ∉ m.map Prod.fst → lookupStr m k = none := by
  induction m with
  | nil => intro _; rfl
  | cons q t ih =>
    obtain ⟨k0, v0⟩ := q
    intro h
    have hne : (k0 == k) = false := by
      simp only [beq_eq_false_iff_ne]
      intro he
      apply h
      simp only [List.map_cons]
      rw [← he]
      exact List.mem_cons_self _ _
    have ht : k ∉ t.map Prod.fst := by
      intro hm
      apply h
      simp only [List.map_cons]
      exact List.mem_cons_of_mem _ hm
    simp only [lookupStr, List.find?, hne]
    exact ih ht

/-- Folding the per-type buckets of a release into a commit map appends, per
type key, exactly that release's bucket, when the release's type keys are
free of duplicates, as the keys of a JavaScript object are. -/
theorem foldl_upsert_lookup (entries : List (String × List Commit)) :
    ∀ (cm : List (String × List Commit)) (ty : String),
      (entries.map Prod.fst).Nodup →
      (lookupStr (entries.foldl (fun cm2 q => upsertAppend cm2 q.1 q.2) cm) ty).getD [] =
        (lookupStr cm ty).getD [] ++ (lookupStr entries ty).getD [] := by
  induction entries with
  | nil => intro cm ty _; simp [lookupStr]
  | cons q t ih =>
    obtain ⟨k0, vs0⟩ := q
    intro cm ty hnd
    simp only [List.map_cons, List.nodup_cons] at hnd
    rw [List.foldl_cons]
    rw [ih (upsertAppend cm k0 vs0) ty hnd.2]
    by_cases hty : ty = k0
    · subst hty
      rw [lookupStr_upsert_self]
      rw [lookupStr_eq_none t ty hnd.1]
      simp [lookupStr, List.find?]
    · have hbeq : (ty == k0) = false := by simp [hty]
      rw [lookupStr_upsert_ne cm k0 vs0 ty hbeq]
      have hbeq2 : (k0 == ty) = false := by
        simp only [beq_eq_false_iff_ne]
        exact fun he => hty he.symm
      simp [lookupStr, List.find?, hbeq2]

/-- Lookup through the finalizing map of groupReleases. -/
theorem lookupStr_map_finalize (g : List (String × ReleaseAcc)) (k : String) :
    lookupStr (g.map (fun q => (q.1, finalizeAcc q.2))) k =
      (lookupStr g k).map finalizeAcc := by
  induction g with
  | nil => rfl
  | cons q t ih =>
    obtain ⟨k0, a0⟩ := q
    simp only [List.map_cons, lookupStr, List.find?] at ih ⊢
    cases hc : (k0 == k) with
    | true => simp [hc]
    | false => simp only [hc]; exact ih

/-- String construction recovers the string. -/
theorem strMk_data (s : String) : String.mk s.data = s := by
  cases s
  rfl

/-- The minor bucket key as the dot-joined character data of its components. -/
theorem mk_key_minor (M m : Nat) :
    String.mk ((natToStr M).data ++ '.' :: (natToStr m).data) = natToStr M ++ "." ++ natToStr m := by
  have h : (natToStr M).data ++ '.' :: (natToStr m).data =
      (natToStr M ++ ".").data ++ (natToStr m).data := by
    simp [String.data_append]
  rw [h, strMk_append_data]

/-- The commits of an accumulated release: the release's buckets folded onto
the accumulator's. -/
theorem accumulateRelease_commits (acc : ReleaseAcc) (r : Release) :
    (accumulateRelease acc r).commits =
      r.commits.foldl (fun cm q => upsertAppend cm q.1 q.2) acc.commits := by
  unfold accumulateRelease
  repeat' split
  all_goals rfl

/-- The finalizing pass does not touch the commits. -/
theorem finalizeAcc_commits (acc : ReleaseAcc) : (finalizeAcc acc).commits = acc.commits := rfl

/-- A coerced release is accumulated under the major.minor key when grouping
by minor. -/
theorem groupStep_minor_eq (g : List (String × ReleaseAcc)) (v : String) (r : Release)
    (M m p : Nat) (h : coerce false v = some ⟨M, m, p, []⟩) :
    groupStep "minor" g (v, r) =
      setGroup g (specKeyMinor ⟨M, m, p, []⟩)
        (accumulateRelease ((lookupStr g (specKeyMinor ⟨M, m, p, []⟩)).getD
          { tag := specKeyMinor ⟨M, m, p, []⟩, name := [], date := [], messages := [],
            commits := [] }) r) := by
  simp only [groupStep, h, splitDot_render]
  simp only [List.length_cons, List.length_nil, show ((0 + 1 + 1 + 1 : Nat) != 3) = false
      from rfl, Bool.false_eq_true, if_false,
    show (asciiLower "minor" == "major") = false from rfl,
    show [(natToStr M).data, (natToStr m).data, (natToStr p).data].dropLast =
      [(natToStr M).data, (natToStr m).data] from rfl,
    show joinDot [(natToStr M).data, (natToStr m).data] =
      (natToStr M).data ++ '.' :: (natToStr m).data from rfl,
    mk_key_minor, specKeyMinor]

/-- A coerced release is accumulated under the major key when grouping by
major. -/
theorem groupStep_major_eq (g : List (String × ReleaseAcc)) (v : String) (r : Release)
    (M m p : Nat) (h : coerce false v = some ⟨M, m, p, []⟩) :
    groupStep "major" g (v, r) =
      setGroup g (specKeyMajor ⟨M, m, p, []⟩)
        (accumulateRelease ((lookupStr g (specKeyMajor ⟨M, m, p, []⟩)).getD
          { tag := specKeyMajor ⟨M, m, p, []⟩, name := [], date := [], messages := [],
            commits := [] }) r) := by
  simp only [groupStep, h, splitDot_render]
  simp only [List.length_cons, List.length_nil, show ((0 + 1 + 1 + 1 : Nat) != 3) = false
      from rfl, Bool.false_eq_true, if_false,
    show (asciiLower "major" == "major") = true from rfl, if_true,
    show ([(natToStr M).data, (natToStr m).data, (natToStr p).data].dropLast).dropLast =
      [(natToStr M).data] from rfl,
    show joinDot [(natToStr M).data] = (natToStr M).data from rfl,
    strMk_data, specKeyMajor]

/-- A release whose tag does not coerce leaves the groups untouched. -/
theorem groupStep_skip (gb : String) (g : List (String × ReleaseAcc)) (v : String) (r : Release)
    (h : coerce false v = none) : groupStep gb g (v, r) = g := by
  simp only [groupStep, h]
  rfl

/-- The finalizing map keeps the bucket keys. -/
theorem keys_map_finalize (g : List (String × ReleaseAcc)) :
    (g.map (fun q => (q.1, finalizeAcc q.2))).map Prod.fst = g.map Prod.fst := by
  induction g with
  | nil => rfl
  | cons q t ih => simp [ih]

/-- C9: groupReleases skips releases whose tag does not coerce; a coercible
release lands in the bucket keyed by its tag with the patch component dropped,
and with the minor component dropped too when grouping by major, the key
appended in iteration order when new; the contributing release's commit
buckets are appended per type key to the bucket's; and on the example the
releases 1.2.3, 1.2.4 and 1.3.0 aggregate into the buckets 1.2 and 1.3, the
commits of 1.2 being the order-preserved union of those of 1.2.3 and 1.2.4. -/
theorem groupReleases_buckets_and_concat :
    (∀ (gb : String) (pre post : List (String × Release)) (v : String) (r : Release),
      coerce false v = none →
      groupReleases (pre ++ (v, r) :: post) gb = groupReleases (pre ++ post) gb) ∧
    (∀ (rs : List (String × Release)) (v : String) (r : Release) (sv : SemVer),
      coerce false v = some sv →
      (groupReleases (rs ++ [(v, r)]) "minor").map Prod.fst =
        (if (lookupStr (groupReleases rs "minor") (specKeyMinor sv)).isSome
         then (groupReleases rs "minor").map Prod.fst
         else (groupReleases rs "minor").map Prod.fst ++ [specKeyMinor sv])) ∧
    (∀ (rs : List (String × Release)) (v : String) (r : Release) (sv : SemVer),
      coerce false v = some sv →
      (groupReleases (rs ++ [(v, r)]) "major").map Prod.fst =
        (if (lookupStr (groupReleases rs "major") (specKeyMajor sv)).isSome
         then (groupReleases rs "major").map Prod.fst
         else (groupReleases rs "major").map Prod.fst ++ [specKeyMajor sv])) ∧
    (∀ (rs : List (String × Release)) (v : String) (r : Release) (sv : SemVer) (ty : String),
      coerce false v = some sv → (r.commits.map Prod.fst).Nodup →
      bucketCommits (groupReleases (rs ++ [(v, r)]) "minor") (specKeyMinor sv) ty =
        bucketCommits (groupReleases rs "minor") (specKeyMinor sv) ty ++
          (lookupStr r.commits ty).getD []) ∧
    (groupReleases exReleases "minor").map Prod.fst = ["1.2", "1.3"] ∧
    bucketCommits (groupReleases exReleases "minor") "1.2" "fix" = [exCommitFix] ∧
    bucketCommits (groupReleases exReleases "minor") "1.2" "feat" = [exCommitFeat] ∧
    bucketCommits (groupReleases exReleases "minor") "1.3" "feat" = [exCommitMajor] := by
  refine ⟨?_, ?_, ?_, ?_, by decide, by decide, by decide, by decide⟩
  · intro gb pre post v r h
    simp only [groupReleases, List.foldl_append, List.foldl_cons]
    rw [groupStep_skip gb (List.foldl (groupStep gb) [] pre) v r h]
  · intro rs v r sv h
    obtain ⟨M, m, p, pr⟩ := sv
    have hpre : pr = [] := coerce_false_pre v ⟨M, m, p, pr⟩ h
    subst hpre
    simp only [groupReleases, List.foldl_append, List.foldl_cons, List.foldl_nil]
    rw [groupStep_minor_eq (List.foldl (groupStep "minor") [] rs) v r M m p h]
    rw [keys_map_finalize, keys_map_finalize, setGroup_keys, lookupStr_map_finalize]
    cases hs : (lookupStr (List.foldl (groupStep "minor") [] rs)
        (specKeyMinor ⟨M, m, p, []⟩)).isSome <;>
      simp [hs, Option.isSome_map']
  · intro rs v r sv h
    obtain ⟨M, m, p, pr⟩ := sv
    have hpre : pr = [] := coerce_false_pre v ⟨M, m, p, pr⟩ h
    subst hpre
    simp only [groupReleases, List.foldl_append, List.foldl_cons, List.foldl_nil]
    rw [groupStep_major_eq (List.foldl (groupStep "major") [] rs) v r M m p h]
    rw [keys_map_finalize, keys_map_finalize, setGroup_keys, lookupStr_map_finalize]
    cases hs : (lookupStr (List.foldl (groupStep "major") [] rs)
        (specKeyMajor ⟨M, m, p, []⟩)).isSome <;>
      simp [hs, Option.isSome_map']
  · intro rs v r sv ty h hnd
    obtain ⟨M, m, p, pr⟩ := sv
    have hpre : pr = [] := coerce_false_pre v ⟨M, m, p, pr⟩ h
    subst hpre
    simp only [groupReleases, bucketCommits, List.foldl_append, List.foldl_cons, List.foldl_nil]
    rw [groupStep_minor_eq (List.foldl (groupStep "minor") [] rs) v r M m p h]
    rw [lookupStr_map_finalize, lookupStr_map_finalize, lookupStr_setGroup_self]
    simp only [Option.map_some', Option.getD_some, finalizeAcc_commits, accumulateRelease_commits]
    rw [foldl_upsert_lookup r.commits _ ty hnd]
    cases hs : lookupStr (List.foldl (groupStep "minor") [] rs) (specKeyMinor ⟨M, m, p, []⟩) with
    | none => simp [hs, lookupStr]
    | some a => simp [hs, finalizeAcc_commits]

theorem groupReleases_buckets_witness :
    (coerce false "oops" = none) ∧
    groupReleases ([("1.2.3", exRelease123)] ++ ("oops", exRelease124) ::
        [("1.3.0", exRelease130)]) "minor" =
      groupReleases ([("1.2.3", exRelease123)] ++ [("1.3.0", exRelease130)]) "minor" ∧
    (coerce false "1.2.4" = some ⟨1, 2, 4, []⟩) ∧
    ((exRelease124.commits.map Prod.fst).Nodup) ∧
    bucketCommits (groupReleases ([("1.2.3", exRelease123)] ++ [("1.2.4", exRelease124)]) "minor")
        (specKeyMinor ⟨1, 2, 4, []⟩) "feat" =
      bucketCommits (groupReleases [("1.2.3", exRelease123)] "minor") (specKeyMinor ⟨1, 2, 4, []⟩)
          "feat" ++ (lookupStr exRelease124.commits "feat").getD [] :=
  ⟨by decide,
   groupReleases_buckets_and_concat.1 "minor" [("1.2.3", exRelease123)]
     [("1.3.0", exRelease130)] "oops" exRelease124 (by decide),
   by decide, by decide,
   groupReleases_buckets_and_concat.2.2.2.1 [("1.2.3", exRelease123)] "1.2.4" exRelease124
     ⟨1, 2, 4, []⟩ "feat" (by decide) (by decide)⟩

end CCChangelog
